import Mathlib

/-!
Verification of the agent subprocess orchestration layer of nanoclaw
(src/container-runner.ts).

Strings are modelled as lists of characters (JS strings are sequences of
UTF-16 units; all constants involved are ASCII, so code points are an
adequate model).  Each TypeScript function of the source is translated
into an executable Lean definition, and the claims of the specification
are settled as theorems about those definitions.
-/

namespace NanoClaw

/-- Model of the JS whitespace class used by String.prototype.trim
(restricted to the ASCII whitespace characters). -/
def isWs (c : Char) : Bool :=
  c = ' ' || c = '\t' || c = '\n' || c = '\r' || c = '\x0b' || c = '\x0c'

/-- Model of String.prototype.trim: drop whitespace from both ends. -/
def trimL (l : List Char) : List Char :=
  ((l.dropWhile isWs).reverse.dropWhile isWs).reverse

/-- Model of String.prototype.split with separator a newline character. -/
def splitNl : List Char → List (List Char)
  | [] => [[]]
  | c :: t =>
    if c = '\n' then [] :: splitNl t
    else
      match splitNl t with
      | [] => [[c]]
      | h :: r => (c :: h) :: r

/-- Model of lines[lines.length - 1] on the result of a split (split never
returns an empty array, so the default is never used). -/
def lastLineD (l : List Char) : List Char :=
  (splitNl l).getLastD []

/-- Matches a literal pattern at the head of a list: returns the remainder
when the pattern is a prefix, and none otherwise. -/
def matchHead : List Char → List Char → Option (List Char)
  | [], l => some l
  | _ :: _, [] => none
  | p :: ps, c :: cs => if c = p then matchHead ps cs else none

/-- Model of String.prototype.indexOf restricted to a successful result:
index of the first occurrence of pat, none when indexOf returns -1. -/
def firstIdx (pat : List Char) : List Char → Option Nat
  | [] => if (matchHead pat ([] : List Char)).isSome then some 0 else none
  | c :: t =>
    if (matchHead pat (c :: t)).isSome then some 0
    else (firstIdx pat t).map (· + 1)

/-- Declarative occurrence predicate: pat occurs in hay starting at index i. -/
def occursAt (pat hay : List Char) (i : Nat) : Prop :=
  (matchHead pat (hay.drop i)).isSome = true

instance (pat hay : List Char) (i : Nat) : Decidable (occursAt pat hay i) := by
  unfold occursAt; infer_instance

/-- Model of String.prototype.slice with two nonnegative arguments:
the characters of positions [a, b). -/
def sliceL (l : List Char) (a b : Nat) : List Char :=
  (l.drop a).take (b - a)

/-- Model of String.prototype.slice with a negative argument -n:
the last n characters. -/
def takeRight (l : List Char) (n : Nat) : List Char :=
  l.drop (l.length - n)

theorem matchHead_append (p r : List Char) : matchHead p (p ++ r) = some r := by
  induction p with
  | nil => rfl
  | cons c t ih => simp [matchHead, ih]

theorem matchHead_eq_some_iff (p : List Char) (l r : List Char) :
    matchHead p l = some r ↔ l = p ++ r := by
  induction p generalizing l with
  | nil => simp [matchHead, eq_comm]
  | cons c t ih =>
    cases l with
    | nil => simp [matchHead]
    | cons d m =>
      by_cases h : d = c
      · subst h
        simp [matchHead, ih]
      · simp [matchHead, h]

theorem matchHead_isSome_iff (p l : List Char) :
    (matchHead p l).isSome = true ↔ ∃ r, l = p ++ r := by
  rw [Option.isSome_iff_exists]
  constructor
  · rintro ⟨r, hr⟩
    exact ⟨r, (matchHead_eq_some_iff p l r).mp hr⟩
  · rintro ⟨r, hr⟩
    exact ⟨r, (matchHead_eq_some_iff p l r).mpr hr⟩

/-- Characterization of firstIdx: it returns exactly the least index at
which the pattern occurs. -/
theorem firstIdx_eq_some_iff (pat hay : List Char) (i : Nat) :
    firstIdx pat hay = some i ↔
      occursAt pat hay i ∧ ∀ j, j < i → ¬ occursAt pat hay j := by
  induction hay generalizing i with
  | nil =>
    unfold firstIdx occursAt
    by_cases h : (matchHead pat ([] : List Char)).isSome = true
    · simp only [h, if_pos]
      constructor
      · rintro h2
        cases h2
        exact ⟨by simpa using h, by omega⟩
      · rintro ⟨_, hmin⟩
        by_contra hne
        have hi : 0 < i := Nat.pos_of_ne_zero (by simpa [eq_comm] using hne)
        exact hmin 0 hi (by simpa using h)
    · simp only [h]
      rw [if_neg (by simp [h])]
      constructor
      · intro hh; cases hh
      · rintro ⟨hocc, _⟩
        exact absurd (by simpa using hocc) (by simpa using h)
  | cons c t ih =>
    unfold firstIdx
    by_cases h : (matchHead pat (c :: t)).isSome = true
    · rw [if_pos h]
      constructor
      · rintro h2
        cases h2
        exact ⟨by simpa [occursAt] using h, by omega⟩
      · rintro ⟨_, hmin⟩
        by_contra hne
        have hi : 0 < i := Nat.pos_of_ne_zero (by simpa [eq_comm] using hne)
        exact hmin 0 hi (by simpa [occursAt] using h)
    · rw [if_neg (by simpa using h)]
      constructor
      · intro h2
        rcases Option.map_eq_some'.mp h2 with ⟨k, hk, rfl⟩
        rcases (ih k).mp hk with ⟨hocc, hmin⟩
        refine ⟨by simpa [occursAt] using hocc, ?_⟩
        intro j hj
        cases j with
        | zero => simpa [occursAt] using h
        | succ j2 =>
          have := hmin j2 (by omega)
          simpa [occursAt] using this
      · rintro ⟨hocc, hmin⟩
        cases i with
        | zero => exact absurd (by simpa [occursAt] using hocc) (by simpa using h)
        | succ k =>
          have hk : firstIdx pat t = some k := by
            apply (ih k).mpr
            refine ⟨by simpa [occursAt] using hocc, ?_⟩
            intro j hj
            have := hmin (j + 1) (by omega)
            simpa [occursAt] using this
          simp [hk]

/-- Absence characterization of firstIdx (the indexOf = -1 case). -/
theorem firstIdx_eq_none_iff (pat hay : List Char) :
    firstIdx pat hay = none ↔ ∀ j, ¬ occursAt pat hay j := by
  induction hay with
  | nil =>
    unfold firstIdx occursAt
    by_cases h : (matchHead pat ([] : List Char)).isSome = true
    · simp only [h, if_pos]
      constructor
      · intro hh; cases hh
      · intro hall
        exact absurd (by simpa using h) (by simpa using hall 0)
    · rw [if_neg (by simpa using h)]
      simp only [true_iff]
      intro j
      simp [List.drop_nil] at h ⊢
      simpa using h
  | cons c t ih =>
    unfold firstIdx
    by_cases h : (matchHead pat (c :: t)).isSome = true
    · rw [if_pos h]
      constructor
      · intro hh; cases hh
      · intro hall
        exact absurd (by simpa [occursAt] using h) (hall 0)
    · rw [if_neg (by simpa using h)]
      simp only [Option.map_eq_none', ih]
      constructor
      · intro hall j
        cases j with
        | zero => simpa [occursAt] using h
        | succ k => simpa [occursAt] using hall k
      · intro hall j
        have := hall (j + 1)
        simpa [occursAt] using this

/-! Structured worker result (the ContainerOutput interface). -/

/-- Status field of the structured worker result. -/
inductive OutStatus
  | success
  | error
deriving DecidableEq

/-- Model of the ContainerOutput interface of container-runner.ts: the
structured result of one agent invocation, as exchanged in JSON between
the worker and the host. -/
structure ContainerOutput where
  status : OutStatus
  result : Option (List Char)
  newSessionId : Option (List Char) := none
  error : Option (List Char) := none
deriving DecidableEq

/-! JSON codec for ContainerOutput values.  The host parses the worker
payload with JSON.parse and uses the value as a ContainerOutput; the
model is a parser accepting the JSON texts that serializing a
ContainerOutput produces (JSON.stringify with the interface field order,
absent optional fields omitted). -/

/-- Hexadecimal digit character of a value below 16 (lowercase, as
produced by JSON.stringify control-character escapes). -/
def hexDigit (n : Nat) : Char :=
  if n < 10 then Char.ofNat (48 + n) else Char.ofNat (87 + n)

/-- Value of a hexadecimal digit character. -/
def hexVal (c : Char) : Option Nat :=
  if '0' ≤ c ∧ c ≤ '9' then some (c.toNat - 48)
  else if 'a' ≤ c ∧ c ≤ 'f' then some (c.toNat - 87)
  else if 'A' ≤ c ∧ c ≤ 'F' then some (c.toNat - 55)
  else none

/-- Escaping JSON.stringify applies to one character of a string value. -/
def escChar (c : Char) : List Char :=
  if c = '"' then ['\\', '"']
  else if c = '\\' then ['\\', '\\']
  else if c = '\x08' then ['\\', 'b']
  else if c = '\t' then ['\\', 't']
  else if c = '\n' then ['\\', 'n']
  else if c = '\x0c' then ['\\', 'f']
  else if c = '\r' then ['\\', 'r']
  else if c.toNat < 32 then
    ['\\', 'u', '0', '0', hexDigit (c.toNat / 16), hexDigit (c.toNat % 16)]
  else [c]

/-- Escaping of a whole string value. -/
def escapeJson (s : List Char) : List Char :=
  s.foldr (fun c acc => escChar c ++ acc) []

/-- Serialized JSON string literal. -/
def jsonStr (s : List Char) : List Char :=
  '"' :: (escapeJson s ++ ['"'])

/-- Literal text of a status value. -/
def statusLit : OutStatus → List Char
  | .success => "success".data
  | .error => "error".data

/-- Serialized result field value (null or a string literal). -/
def serOptVal : Option (List Char) → List Char
  | none => "null".data
  | some s => jsonStr s

/-- Serialized optional string field: omitted when absent, otherwise a
comma, the quoted key, a colon and the string literal. -/
def serOptField (key : List Char) : Option (List Char) → List Char
  | none => []
  | some s => (',' :: '"' :: (key ++ ['"', ':'])) ++ jsonStr s

/-- Model of JSON.stringify on a ContainerOutput object. -/
def serializeContainerOutput (o : ContainerOutput) : List Char :=
  "\x7b\"status\":".data ++ jsonStr (statusLit o.status)
    ++ ",\"result\":".data ++ serOptVal o.result
    ++ serOptField "newSessionId".data o.newSessionId
    ++ serOptField "error".data o.error
    ++ ['\x7d']

/-- Adds a character to the front of a successful string-parse result. -/
def consCh (c : Char) : Option (List Char × List Char) → Option (List Char × List Char) :=
  Option.map (fun p => (c :: p.1, p.2))

/-- Scanner for one unit of a JSON string literal body: the closing
quote (none), or one decoded character together with the remaining
input.  Fails on a malformed escape. -/
def nextTok : List Char → Option (Option Char × List Char)
  | [] => none
  | c :: r =>
    if c = '"' then some (none, r)
    else if c = '\\' then
      match r with
      | [] => none
      | e :: r2 =>
        if e = '"' then some (some '"', r2)
        else if e = '\\' then some (some '\\', r2)
        else if e = 'b' then some (some '\x08', r2)
        else if e = 't' then some (some '\t', r2)
        else if e = 'n' then some (some '\n', r2)
        else if e = 'f' then some (some '\x0c', r2)
        else if e = 'r' then some (some '\r', r2)
        else if e = 'u' then
          match r2 with
          | a :: b :: c2 :: d :: r3 =>
            match hexVal a, hexVal b, hexVal c2, hexVal d with
            | some ha, some hb, some hc, some hd =>
              some (some (Char.ofNat (((ha * 16 + hb) * 16 + hc) * 16 + hd)), r3)
            | _, _, _, _ => none
          | _ => none
        else none
    else some (some c, r)

/-- Fuelled scanner loop for a JSON string literal body.  Every
successful nextTok step consumes at least one input character, so fuel
equal to the input length is always sufficient: when fuel reaches zero
the remaining input is empty and the unbounded loop would fail on it as
well. -/
def pBF : Nat → List Char → Option (List Char × List Char)
  | 0, _ => none
  | fuel + 1, l =>
    match nextTok l with
    | none => none
    | some (none, r) => some ([], r)
    | some (some c, r) => consCh c (pBF fuel r)

/-- Parser for the body of a JSON string literal (after the opening
quote), undoing the escaping of JSON.stringify.  Returns the decoded
value and the input remaining after the closing quote. -/
def parseStrBody (l : List Char) : Option (List Char × List Char) :=
  pBF l.length l

/-- Parser for the status field value. -/
def parseStatusTok (l : List Char) : Option (OutStatus × List Char) :=
  match matchHead "\"success\"".data l with
  | some r => some (.success, r)
  | none =>
    match matchHead "\"error\"".data l with
    | some r => some (.error, r)
    | none => none

/-- Parser for the result field value (null or a string literal). -/
def parseOptStrVal (l : List Char) : Option (Option (List Char) × List Char) :=
  match matchHead "null".data l with
  | some r => some (none, r)
  | none =>
    match l with
    | '"' :: r => (parseStrBody r).map (fun p => (some p.1, p.2))
    | _ => none

/-- Leading text of a serialized optional string field. -/
def fieldPre (key : List Char) : List Char :=
  ',' :: '"' :: (key ++ ['"', ':', '"'])

/-- Parser for an optional string field: consumes nothing when the field
is absent. -/
def parseOptStrField (key : List Char) (l : List Char) :
    Option (Option (List Char) × List Char) :=
  match matchHead (fieldPre key) l with
  | some r => (parseStrBody r).map (fun p => (some p.1, p.2))
  | none => some (none, l)

/-- Parser for the JSON text of a ContainerOutput object. -/
def parseContainerOutput (l : List Char) : Option ContainerOutput :=
  match matchHead "\x7b\"status\":".data l with
  | none => none
  | some r =>
    match parseStatusTok r with
    | none => none
    | some (st, r1) =>
      match matchHead ",\"result\":".data r1 with
      | none => none
      | some r2 =>
        match parseOptStrVal r2 with
        | none => none
        | some (res, r3) =>
          match parseOptStrField "newSessionId".data r3 with
          | none => none
          | some (sid, r4) =>
            match parseOptStrField "error".data r4 with
            | none => none
            | some (em, r5) =>
              match r5 with
              | ['\x7d'] => some ⟨st, res, sid, em⟩
              | _ => none

theorem hexVal_hexDigit : ∀ n, n < 16 → hexVal (hexDigit n) = some n := by decide

theorem escChar_length_pos (c : Char) : 1 ≤ (escChar c).length := by
  unfold escChar
  split_ifs <;> simp

theorem nextTok_u (a b c2 d : Char) (x : List Char) :
    nextTok ('\\' :: 'u' :: a :: b :: c2 :: d :: x) =
      (match hexVal a, hexVal b, hexVal c2, hexVal d with
       | some ha, some hb, some hc, some hd =>
         some (some (Char.ofNat (((ha * 16 + hb) * 16 + hc) * 16 + hd)), x)
       | _, _, _, _ => none) := rfl

/-- Scanning the escaping of a single character decodes it back. -/
theorem nextTok_escChar (c : Char) (x : List Char) :
    nextTok (escChar c ++ x) = some (some c, x) := by
  by_cases h1 : c = '"'
  · subst h1; rfl
  by_cases h2 : c = '\\'
  · subst h2; rfl
  by_cases h3 : c = '\x08'
  · subst h3; rfl
  by_cases h4 : c = '\t'
  · subst h4; rfl
  by_cases h5 : c = '\n'
  · subst h5; rfl
  by_cases h6 : c = '\x0c'
  · subst h6; rfl
  by_cases h7 : c = '\r'
  · subst h7; rfl
  by_cases h8 : c.toNat < 32
  · rw [show escChar c =
        ['\\', 'u', '0', '0', hexDigit (c.toNat / 16), hexDigit (c.toNat % 16)]
      from by simp [escChar, h1, h2, h3, h4, h5, h6, h7, h8]]
    rw [show (['\\', 'u', '0', '0', hexDigit (c.toNat / 16),
          hexDigit (c.toNat % 16)] : List Char) ++ x =
        '\\' :: 'u' :: '0' :: '0' :: hexDigit (c.toNat / 16) ::
          hexDigit (c.toNat % 16) :: x from rfl]
    rw [nextTok_u]
    rw [show hexVal '0' = some 0 from rfl]
    rw [hexVal_hexDigit (c.toNat / 16) (by omega)]
    rw [hexVal_hexDigit (c.toNat % 16) (by omega)]
    show some (some (Char.ofNat (((0 * 16 + 0) * 16 + c.toNat / 16) * 16 + c.toNat % 16)), x) =
      some (some c, x)
    rw [show ((0 * 16 + 0) * 16 + c.toNat / 16) * 16 + c.toNat % 16 = c.toNat from by omega]
    rw [Char.ofNat_toNat]
  · rw [show escChar c = [c] from by simp [escChar, h1, h2, h3, h4, h5, h6, h7, h8]]
    rw [show ([c] : List Char) ++ x = c :: x from rfl]
    simp only [nextTok.eq_def]
    rw [if_neg h1, if_neg h2]

theorem pBF_escape (s : List Char) :
    ∀ (fuel : Nat) (rest : List Char), (escapeJson s).length < fuel →
      pBF fuel (escapeJson s ++ '"' :: rest) = some (s, rest) := by
  induction s with
  | nil =>
    intro fuel rest h
    obtain ⟨f, rfl⟩ : ∃ f, fuel = f + 1 := ⟨fuel - 1, by omega⟩
    rfl
  | cons c s ih =>
    intro fuel rest h
    obtain ⟨f, rfl⟩ : ∃ f, fuel = f + 1 := ⟨fuel - 1, by omega⟩
    rw [show escapeJson (c :: s) ++ '"' :: rest =
        escChar c ++ (escapeJson s ++ '"' :: rest) from by
      rw [show escapeJson (c :: s) = escChar c ++ escapeJson s from rfl, List.append_assoc]]
    rw [show pBF (f + 1) (escChar c ++ (escapeJson s ++ '"' :: rest)) =
        (match nextTok (escChar c ++ (escapeJson s ++ '"' :: rest)) with
         | none => none
         | some (none, r) => some ([], r)
         | some (some c2, r) => consCh c2 (pBF f r)) from rfl]
    rw [nextTok_escChar]
    show consCh c (pBF f (escapeJson s ++ '"' :: rest)) = some (c :: s, rest)
    have hlen : (escapeJson s).length < f := by
      have h1 : escapeJson (c :: s) = escChar c ++ escapeJson s := rfl
      have h2 := escChar_length_pos c
      rw [h1, List.length_append] at h
      omega
    rw [ih f rest hlen]
    rfl

/-- Round trip of string escaping: parsing the escaped body recovers the
original string and the input after the closing quote. -/
theorem parseStrBody_escape (s rest : List Char) :
    parseStrBody (escapeJson s ++ '"' :: rest) = some (s, rest) := by
  unfold parseStrBody
  apply pBF_escape
  rw [List.length_append]
  simp

theorem parseStatusTok_ser (st : OutStatus) (r : List Char) :
    parseStatusTok (jsonStr (statusLit st) ++ r) = some (st, r) := by
  cases st
  · show parseStatusTok ("\"success\"".data ++ r) = some (.success, r)
    unfold parseStatusTok
    rw [matchHead_append]
  · show parseStatusTok ("\"error\"".data ++ r) = some (.error, r)
    unfold parseStatusTok
    rw [show matchHead "\"success\"".data ("\"error\"".data ++ r) = none from rfl]
    rw [matchHead_append]

theorem parseOptStrVal_ser (v : Option (List Char)) (r : List Char) :
    parseOptStrVal (serOptVal v ++ r) = some (v, r) := by
  cases v with
  | none =>
    show parseOptStrVal ("null".data ++ r) = some (none, r)
    unfold parseOptStrVal
    rw [matchHead_append]
  | some s =>
    show parseOptStrVal ('"' :: (escapeJson s ++ ['"']) ++ r) = some (some s, r)
    rw [show ('"' :: (escapeJson s ++ ['"']) ++ r : List Char) =
        '"' :: (escapeJson s ++ '"' :: r) from by simp]
    unfold parseOptStrVal
    rw [show matchHead "null".data ('"' :: (escapeJson s ++ '"' :: r)) = none from rfl]
    show (parseStrBody (escapeJson s ++ '"' :: r)).map (fun p => (some p.1, p.2)) = some (some s, r)
    rw [parseStrBody_escape]
    rfl

theorem optField_hit (key s r : List Char) :
    parseOptStrField key ((',' :: '"' :: (key ++ ['"', ':'])) ++ (jsonStr s ++ r)) =
      some (some s, r) := by
  unfold parseOptStrField
  rw [show ((',' :: '"' :: (key ++ ['"', ':'])) ++ (jsonStr s ++ r) : List Char) =
      fieldPre key ++ (escapeJson s ++ '"' :: r) from by simp [fieldPre, jsonStr]]
  rw [matchHead_append]
  show (parseStrBody (escapeJson s ++ '"' :: r)).map (fun p => (some p.1, p.2)) = some (some s, r)
  rw [parseStrBody_escape]
  rfl

theorem optField_miss (key r : List Char) (h : matchHead (fieldPre key) r = none) :
    parseOptStrField key r = some (none, r) := by
  unfold parseOptStrField
  rw [h]

theorem optField_hit2 (key s r : List Char) :
    parseOptStrField key (',' :: '"' :: ((key ++ ['"', ':']) ++ (jsonStr s ++ r))) =
      some (some s, r) :=
  optField_hit key s r

/-- Round trip of the ContainerOutput JSON codec: parsing the serialized
form of any value recovers exactly that value. -/
theorem parseContainerOutput_serialize (o : ContainerOutput) :
    parseContainerOutput (serializeContainerOutput o) = some o := by
  obtain ⟨st, res, sid, em⟩ := o
  simp only [serializeContainerOutput, List.append_assoc]
  unfold parseContainerOutput
  simp only [matchHead_append, parseStatusTok_ser, parseOptStrVal_ser]
  cases sid with
  | some s1 =>
    simp only [serOptField, List.append_assoc, optField_hit]
    cases em with
    | some s2 =>
      simp only [serOptField, List.append_assoc, optField_hit]
    | none =>
      simp only [serOptField, List.nil_append]
      rfl
  | none =>
    simp only [serOptField, List.nil_append]
    cases em with
    | some s2 =>
      simp only [serOptField, List.append_assoc]
      rw [show parseOptStrField ['n', 'e', 'w', 'S', 'e', 's', 's', 'i', 'o', 'n', 'I', 'd']
            (',' :: '"' :: (['e', 'r', 'r', 'o', 'r'] ++ ['"', ':']) ++ (jsonStr s2 ++ ['\x7d'])) =
          some (none, ',' :: '"' :: (['e', 'r', 'r', 'o', 'r'] ++ ['"', ':'])
            ++ (jsonStr s2 ++ ['\x7d']))
          from rfl]
      simp only [optField_hit2, optField_hit]
    | none =>
      simp only [serOptField, List.nil_append]
      rfl

/-! Sentinel markers and stdout payload extraction (the close handler of
runContainerAgent, exit code zero path). -/

/-- Start sentinel marker of container-runner.ts. -/
def OUTPUT_START_MARKER : List Char := "---NANOCLAW_OUTPUT_START---".data

/-- End sentinel marker of container-runner.ts. -/
def OUTPUT_END_MARKER : List Char := "---NANOCLAW_OUTPUT_END---".data

/-- Model of the payload selection of the close handler: when both
markers are found (first occurrences, via indexOf) with the end marker
strictly after the start marker, the text between them, trimmed;
otherwise the last line of the whitespace-trimmed stdout. -/
def extractPayload (stdout : List Char) : List Char :=
  match firstIdx OUTPUT_START_MARKER stdout, firstIdx OUTPUT_END_MARKER stdout with
  | some s, some e =>
    if e > s then trimL (sliceL stdout (s + OUTPUT_START_MARKER.length) e)
    else lastLineD (trimL stdout)
  | _, _ => lastLineD (trimL stdout)

/-- Message of the parse-failure error result.  The code appends the
JSON.parse exception text; the model keeps the fixed prefix. -/
def parseFailMsg : List Char := "Failed to parse agent output".data

/-- Parse step on a selected payload: the parsed ContainerOutput, or an
error result describing the parse failure. -/
def parsePayload (payload : List Char) : ContainerOutput :=
  match parseContainerOutput payload with
  | some o => o
  | none => ⟨.error, none, none, some parseFailMsg⟩

/-- Model of the exit-code-zero path of the close handler: parse the
extracted payload, resolving with the parsed ContainerOutput, or with an
error result describing the parse failure. -/
def parseAgentStdout (stdout : List Char) : ContainerOutput :=
  parsePayload (extractPayload stdout)

/-! Bounded stream accumulation (the stdout/stderr data handlers of
runContainerAgent). -/

/-- Model of one data-event handler invocation: drop the chunk when the
buffer is already flagged truncated; append the chunk when it fits in
the remaining room below the cap; otherwise append only the remaining
room and set the truncated flag. -/
def appendChunk (cap : Nat) (st : List Char × Bool) (chunk : List Char) :
    List Char × Bool :=
  if st.2 then st
  else
    let remaining : Int := (cap : Int) - st.1.length
    if (chunk.length : Int) > remaining then
      (st.1 ++ chunk.take remaining.toNat, true)
    else
      (st.1 ++ chunk, st.2)

/-- Accumulated buffer and truncation flag over a sequence of data
events, starting from an empty untruncated buffer. -/
def foldChunks (cap : Nat) (chunks : List (List Char)) : List Char × Bool :=
  chunks.foldl (appendChunk cap) ([], false)

/-! Behaviour model of one invocation.  The child process's observable
behaviour is the sequence of stdout and stderr data events together with
how the invocation ends: an error event because the process could not be
spawned, a close event arriving before the timeout timer fires, a close
event arriving after the timer fired (the process was killed or exited
late), or no close event within the budget at all. -/

/-- How the child process's event sequence ends, relative to the
wall-clock budget. -/
inductive Ending
  | spawnErr (msg : List Char)
  | closesInTime (code : Option Int)
  | closesLate (code : Option Int)
  | hangs

/-- Observable behaviour of one spawned child process. -/
structure Behavior where
  outChunks : List (List Char)
  errChunks : List (List Char)
  ending : Ending

/-- Captured stdout buffer of a behaviour. -/
def stdoutBuf (cap : Nat) (b : Behavior) : List Char :=
  (foldChunks cap b.outChunks).1

/-- Stdout truncation flag of a behaviour. -/
def stdoutTrunc (cap : Nat) (b : Behavior) : Bool :=
  (foldChunks cap b.outChunks).2

/-- Captured stderr buffer of a behaviour. -/
def stderrBuf (cap : Nat) (b : Behavior) : List Char :=
  (foldChunks cap b.errChunks).1

/-- Template-literal text of an exit code (null prints as null). -/
def codeText : Option Int → List Char
  | none => "null".data
  | some n => (toString n).data

/-- Result resolved by the error (spawn failure) handler. -/
def spawnErrorResult (msg : List Char) : ContainerOutput :=
  ⟨.error, none, none, some ("Agent spawn error: ".data ++ msg)⟩

/-- Result resolved when the timeout timer fires. -/
def timeoutResult (T : Nat) : ContainerOutput :=
  ⟨.error, none, none,
    some ("Agent timed out after ".data ++ (toString T).data ++ "ms".data)⟩

/-- Result resolved by the close handler on a non-zero (or null) exit
code: an error carrying the trailing 200 characters of stderr. -/
def exitCodeResult (cap : Nat) (b : Behavior) (code : Option Int) : ContainerOutput :=
  ⟨.error, none, none,
    some ("Agent exited with code ".data ++ codeText code ++ ": ".data
      ++ takeRight (stderrBuf cap b) 200)⟩

/-- Model of the close handler: non-zero (or null) exit code gives the
exit-code error result, a zero exit code gives the parsed stdout
result. -/
def closeResult (cap : Nat) (b : Behavior) (code : Option Int) : ContainerOutput :=
  if code ≠ some 0 then exitCodeResult cap b code
  else parseAgentStdout (stdoutBuf cap b)

/-- Sequence of resolve calls made on the invocation's promise, in event
order.  The error and close handlers clear the timer, so at most one of
the timeout and close resolutions can precede the other; after the timer
fires, the close event of the killed process still runs the close
handler, whose resolve call is a no-op on the already settled promise. -/
def runResolves (T cap : Nat) (b : Behavior) : List ContainerOutput :=
  match b.ending with
  | .spawnErr msg => [spawnErrorResult msg]
  | .closesInTime code => [closeResult cap b code]
  | .closesLate code => [timeoutResult T, closeResult cap b code]
  | .hangs => [timeoutResult T]

/-- Result observed by the caller of runContainerAgent: a promise
settles with its first resolution.  The resolve list is nonempty for
every behaviour, and the function is total, so the model invocation
always yields a ContainerOutput and never throws. -/
def runContainerAgent (T cap : Nat) (b : Behavior) : ContainerOutput :=
  (runResolves T cap b).headD ⟨.error, none, none, none⟩

/-- Host-side actions of one invocation, in event order: process spawn,
timer lifecycle, SIGKILL, and the audit-log write of the close
handler. -/
inductive HostAction
  | spawnProc
  | timerStart (ms : Nat)
  | timerClear
  | timerFire
  | killProc
  | writeLog
deriving DecidableEq

/-- Action trace of one invocation: the promise executor spawns the
process and starts the timeout timer unconditionally; the error and
close handlers clear it; when it fires, the process is killed with
SIGKILL and the close event of the killed process still writes the
audit log. -/
def runActions (T : Nat) (b : Behavior) : List HostAction :=
  [.spawnProc, .timerStart T] ++
    (match b.ending with
     | .spawnErr _ => [.timerClear]
     | .closesInTime _ => [.timerClear, .writeLog]
     | .closesLate _ => [.timerFire, .killProc, .timerClear, .writeLog]
     | .hangs => [.timerFire, .killProc])

/-- Parse failure of the zero-exit-code path on a given captured
stdout. -/
def parseFails (stdout : List Char) : Bool :=
  (parseContainerOutput (extractPayload stdout)).isNone

/-- Failure modes of one invocation: spawn error, timeout (with or
without a late close), non-zero exit code, or a parse failure of the
structured output. -/
def isFailureMode (cap : Nat) (b : Behavior) : Bool :=
  match b.ending with
  | .spawnErr _ => true
  | .closesLate _ => true
  | .hangs => true
  | .closesInTime code => decide (code ≠ some 0) || parseFails (stdoutBuf cap b)

/-! Worker environment construction (buildAgentEnv). -/

/-- Environment map: variable name to value. -/
def EnvMap : Type := List Char → Option (List Char)

/-- Model of a JS object property assignment on an environment object. -/
def setVar (e : EnvMap) (k v : List Char) : EnvMap :=
  fun k2 => if k2 = k then some v else e k2

/-- Paths of config.ts and the process working directory, as parameters:
GROUPS_DIR, DATA_DIR and process.cwd(). -/
structure PathsCfg where
  projectRoot : List Char
  groupsDir : List Char
  dataDir : List Char

/-- Model of path.join on ordinary path segments. -/
def pjoin (a b : List Char) : List Char := a ++ '/' :: b

/-- Model of buildAgentEnv: starting from the inherited host process
environment, set the group working directory, the shared global
directory, the group IPC directory and the group session directory, and,
only for the main group, the project root. -/
def buildAgentEnv (cfg : PathsCfg) (base : EnvMap) (folder : List Char)
    (isMain : Bool) : EnvMap :=
  let groupDir := pjoin cfg.groupsDir folder
  let globalDir := pjoin cfg.groupsDir "global".data
  let groupIpcDir := pjoin (pjoin cfg.dataDir "ipc".data) folder
  let groupSessionsDir :=
    pjoin (pjoin (pjoin cfg.dataDir "sessions".data) folder) ".claude".data
  let e := setVar (setVar (setVar (setVar base
    "WORKSPACE_GROUP".data groupDir)
    "WORKSPACE_GLOBAL".data globalDir)
    "WORKSPACE_IPC".data groupIpcDir)
    "CLAUDE_CONFIG_DIR".data groupSessionsDir
  if isMain then setVar e "WORKSPACE_PROJECT".data cfg.projectRoot else e

/-! Snapshot writers (writeTasksSnapshot, writeGroupsSnapshot). -/

/-- Row of the tasks snapshot, as typed in writeTasksSnapshot. -/
structure TaskRow where
  id : List Char
  groupFolder : List Char
  prompt : List Char
  schedule_type : List Char
  schedule_value : List Char
  status : List Char
  next_run : Option (List Char)
deriving DecidableEq

/-- Entry of the available-groups snapshot (the AvailableGroup
interface). -/
structure AvailableGroup where
  jid : List Char
  name : List Char
  lastActivity : List Char
  isRegistered : Bool
deriving DecidableEq

/-- Model of the task filter of writeTasksSnapshot: main sees all tasks,
others only their own. -/
def tasksSnapshotContent (groupFolder : List Char) (isMain : Bool)
    (tasks : List TaskRow) : List TaskRow :=
  if isMain then tasks
  else tasks.filter (fun t => decide (t.groupFolder = groupFolder))

/-- Model of the group filter of writeGroupsSnapshot: main sees all
groups, others see an empty list. -/
def groupsSnapshotContent (isMain : Bool) (groups : List AvailableGroup) :
    List AvailableGroup :=
  if isMain then groups else []

/-- Filesystem actions performed by the snapshot writers. -/
inductive FsAction
  | mkdirp (p : List Char)
  | writeFile (p : List Char)
  | renameFile (src dst : List Char)
deriving DecidableEq

/-- Filesystem action trace of writeTasksSnapshot: create the group IPC
directory, then write current_tasks.json in place with a single
writeFileSync call. -/
def writeTasksSnapshotActions (dataDir groupFolder : List Char) : List FsAction :=
  [.mkdirp (pjoin (pjoin dataDir "ipc".data) groupFolder),
   .writeFile (pjoin (pjoin (pjoin dataDir "ipc".data) groupFolder)
     "current_tasks.json".data)]

/-- Filesystem action trace of writeGroupsSnapshot: create the group IPC
directory, then write available_groups.json in place with a single
writeFileSync call. -/
def writeGroupsSnapshotActions (dataDir groupFolder : List Char) : List FsAction :=
  [.mkdirp (pjoin (pjoin dataDir "ipc".data) groupFolder),
   .writeFile (pjoin (pjoin (pjoin dataDir "ipc".data) groupFolder)
     "available_groups.json".data)]

/-- Rename discriminator on filesystem actions. -/
def FsAction.isRename : FsAction → Bool
  | .renameFile _ _ => true
  | _ => false

theorem appendChunk_length_le (cap : Nat) (st : List Char × Bool) (chunk : List Char)
    (h : st.1.length ≤ cap) : (appendChunk cap st chunk).1.length ≤ cap := by
  unfold appendChunk
  by_cases ht : st.2
  · rw [if_pos ht]; exact h
  · simp only [ht, if_neg Bool.false_ne_true]
    by_cases hc : ((chunk.length : Int) > (cap : Int) - st.1.length)
    · simp only [hc, if_pos]
      simp only [List.length_append, List.length_take]
      omega
    · rw [if_neg hc]
      simp only [List.length_append]
      omega

theorem foldl_appendChunk_length_le (cap : Nat) (chunks : List (List Char)) :
    ∀ st : List Char × Bool, st.1.length ≤ cap →
      (List.foldl (appendChunk cap) st chunks).1.length ≤ cap := by
  induction chunks with
  | nil => intro st h; simpa using h
  | cons c t ih =>
    intro st h
    exact ih (appendChunk cap st c) (appendChunk_length_le cap st c h)

theorem foldl_appendChunk_truncated (cap : Nat) (chunks : List (List Char)) :
    ∀ st : List Char × Bool, st.2 = true →
      List.foldl (appendChunk cap) st chunks = st := by
  induction chunks with
  | nil => intro st _; rfl
  | cons c t ih =>
    intro st h
    have hstep : appendChunk cap st c = st := by
      unfold appendChunk
      rw [if_pos h]
    rw [List.foldl_cons, hstep]
    exact ih st h

theorem appendChunk_untruncated (cap : Nat) (st : List Char × Bool) (chunk : List Char)
    (h : (appendChunk cap st chunk).2 = false) :
    st.2 = false ∧ appendChunk cap st chunk = (st.1 ++ chunk, false) := by
  unfold appendChunk at h ⊢
  by_cases ht : st.2
  · rw [if_pos ht] at h
    exact absurd h (by simp [ht])
  · rw [if_neg ht] at h ⊢
    by_cases hc : ((chunk.length : Int) > (cap : Int) - st.1.length)
    · rw [if_pos hc] at h
      simp at h
    · rw [if_neg hc] at h ⊢
      simp only [Bool.not_eq_true] at ht
      rw [ht]
      exact ⟨rfl, rfl⟩

theorem foldl_appendChunk_untruncated (cap : Nat) (chunks : List (List Char)) :
    ∀ st : List Char × Bool, (List.foldl (appendChunk cap) st chunks).2 = false →
      List.foldl (appendChunk cap) st chunks = (st.1 ++ chunks.flatten, false) := by
  induction chunks with
  | nil =>
    intro st h
    simp only [List.foldl_nil] at h ⊢
    rw [List.flatten_nil, List.append_nil]
    exact Prod.ext rfl h
  | cons c t ih =>
    intro st h
    rw [List.foldl_cons] at h ⊢
    have h2 := ih (appendChunk cap st c) h
    have hflag : (appendChunk cap st c).2 = false := by
      by_contra hf
      simp only [Bool.not_eq_false] at hf
      rw [foldl_appendChunk_truncated cap t _ hf] at h
      exact absurd h (by simp [hf])
    obtain ⟨_, hstep⟩ := appendChunk_untruncated cap st c hflag
    rw [hstep] at h2 ⊢
    rw [h2]
    simp [List.flatten_cons, List.append_assoc]

/-- Exceeding the cap in total forces the truncation flag. -/
theorem foldChunks_flag_of_overflow (cap : Nat) (chunks : List (List Char))
    (h : cap < (chunks.map List.length).sum) : (foldChunks cap chunks).2 = true := by
  by_contra hf
  simp only [Bool.not_eq_true] at hf
  have hj := foldl_appendChunk_untruncated cap chunks ([], false) hf
  have hlen := foldl_appendChunk_length_le cap chunks ([], false) (by simp)
  rw [hj] at hlen
  simp only [List.nil_append] at hlen
  rw [List.length_flatten] at hlen
  omega

theorem splitNl_ne_nil (l : List Char) : splitNl l ≠ [] := by
  cases l with
  | nil => simp [splitNl]
  | cons c t =>
    unfold splitNl
    by_cases h : c = '\n'
    · simp [h]
    · rw [if_neg h]
      rcases hs : splitNl t with _ | ⟨h2, r⟩ <;> simp

theorem splitNl_no_nl (l : List Char) (h : '\n' ∉ l) : splitNl l = [l] := by
  induction l with
  | nil => rfl
  | cons c t ih =>
    have hc : c ≠ '\n' := fun he => h (he ▸ List.mem_cons_self c t)
    have ht : '\n' ∉ t := fun he => h (List.mem_cons_of_mem c he)
    unfold splitNl
    rw [if_neg hc, ih ht]

theorem lastLineD_no_nl (l : List Char) (h : '\n' ∉ l) : lastLineD l = l := by
  unfold lastLineD
  rw [splitNl_no_nl l h]
  rfl

theorem splitNl_two_le (a d : List Char) : 2 ≤ (splitNl (a ++ '\n' :: d)).length := by
  induction a with
  | nil =>
    rw [List.nil_append]
    unfold splitNl
    rw [if_pos rfl]
    have := splitNl_ne_nil d
    have : 0 < (splitNl d).length := List.length_pos.mpr this
    simp
    omega
  | cons c a ih =>
    rw [List.cons_append]
    unfold splitNl
    by_cases h : c = '\n'
    · rw [if_pos h]
      have := splitNl_ne_nil (a ++ '\n' :: d)
      have : 0 < (splitNl (a ++ '\n' :: d)).length := List.length_pos.mpr this
      simp
      omega
    · rw [if_neg h]
      rcases hs : splitNl (a ++ '\n' :: d) with _ | ⟨h2, r⟩
      · exact absurd hs (splitNl_ne_nil _)
      · rw [hs] at ih
        simp at ih ⊢
        omega

/-- The last line of a text containing a newline is the last line of
what follows the newline. -/
theorem lastLineD_append_nl (a d : List Char) :
    lastLineD (a ++ '\n' :: d) = lastLineD d := by
  induction a with
  | nil =>
    rw [List.nil_append]
    show (splitNl ('\n' :: d)).getLastD [] = lastLineD d
    rw [show splitNl ('\n' :: d) = [] :: splitNl d from by simp [splitNl]]
    rw [List.getLastD_cons]
    rfl
  | cons c a ih =>
    rw [List.cons_append]
    by_cases h : c = '\n'
    · subst h
      show (splitNl ('\n' :: (a ++ '\n' :: d))).getLastD [] = lastLineD d
      rw [show splitNl ('\n' :: (a ++ '\n' :: d)) = [] :: splitNl (a ++ '\n' :: d) from by
        simp [splitNl]]
      rw [List.getLastD_cons]
      exact ih
    · rcases hs : splitNl (a ++ '\n' :: d) with _ | ⟨h2, r⟩
      · exact absurd hs (splitNl_ne_nil _)
      · have hr : r ≠ [] := by
          have h2le := splitNl_two_le a d
          rw [hs] at h2le
          intro hre
          rw [hre] at h2le
          simp at h2le
        show (splitNl (c :: (a ++ '\n' :: d))).getLastD [] = lastLineD d
        rw [show splitNl (c :: (a ++ '\n' :: d)) = (c :: h2) :: r from by
          simp only [splitNl]
          rw [if_neg h, hs]]
        have ih2 : (splitNl (a ++ '\n' :: d)).getLastD [] = lastLineD d := ih
        rw [hs] at ih2
        rw [List.getLastD_cons] at ih2 ⊢
        rcases r with _ | ⟨x, r2⟩
        · exact absurd rfl hr
        · rw [List.getLastD_cons] at ih2 ⊢
          exact ih2

/-- Stdout of a worker that emits its serialized result between the two
sentinel markers on their own lines, surrounded by extraneous output. -/
def emission (o : ContainerOutput) (pre post : List Char) : List Char :=
  pre ++ OUTPUT_START_MARKER ++ ('\n' :: serializeContainerOutput o)
    ++ ('\n' :: OUTPUT_END_MARKER) ++ post

theorem serialize_shape (o : ContainerOutput) :
    ∃ mid, serializeContainerOutput o = '\x7b' :: (mid ++ ['\x7d']) := by
  refine ⟨"\"status\":".data ++ (jsonStr (statusLit o.status)
    ++ (",\"result\":".data ++ (serOptVal o.result
    ++ (serOptField "newSessionId".data o.newSessionId
    ++ serOptField "error".data o.error)))), ?_⟩
  simp [serializeContainerOutput, List.append_assoc]

/-- Trimming a payload that sits on its own line between the markers
removes exactly the two surrounding newlines. -/
theorem trimL_nl_wrap (m : List Char) :
    trimL ('\n' :: (('\x7b' :: (m ++ ['\x7d'])) ++ ['\n'])) =
      '\x7b' :: (m ++ ['\x7d']) := by
  unfold trimL
  rw [List.dropWhile_cons, if_pos (show isWs '\n' = true from rfl)]
  rw [show ('\x7b' :: (m ++ ['\x7d'])) ++ ['\n'] = '\x7b' :: ((m ++ ['\x7d']) ++ ['\n'])
    from rfl]
  rw [List.dropWhile_cons]
  rw [if_neg (show ¬ isWs '\x7b' = true from by decide)]
  rw [List.reverse_cons]
  rw [show (m ++ ['\x7d']) ++ ['\n'] = m ++ ['\x7d', '\n'] from by
    rw [List.append_assoc]; rfl]
  rw [List.reverse_append]
  rw [show (['\x7d', '\n'] : List Char).reverse = ['\n', '\x7d'] from rfl]
  rw [show ((['\n', '\x7d'] : List Char) ++ m.reverse) ++ ['\x7b'] =
      '\n' :: '\x7d' :: (m.reverse ++ ['\x7b']) from by simp]
  rw [List.dropWhile_cons, if_pos (show isWs '\n' = true from rfl)]
  rw [List.dropWhile_cons]
  rw [if_neg (show ¬ isWs '\x7d' = true from by decide)]
  rw [List.reverse_cons, List.reverse_append]
  simp

/-! Claim theorems. -/

/-- C5: for every invocation whose worker process has not exited within
the wall-clock budget (whether or not a close event arrives later), the
process is killed with SIGKILL, the invocation resolves with an error
result carrying the timeout message, and no retry occurs at this layer
(exactly one process spawn per invocation). -/
theorem timeout_kills_and_resolves (T cap : Nat) (outC errC : List (List Char))
    (code : Option Int) :
    runContainerAgent T cap ⟨outC, errC, .hangs⟩ = timeoutResult T ∧
    runContainerAgent T cap ⟨outC, errC, .closesLate code⟩ = timeoutResult T ∧
    (timeoutResult T).status = .error ∧
    (timeoutResult T).error =
      some ("Agent timed out after ".data ++ (toString T).data ++ "ms".data) ∧
    HostAction.killProc ∈ runActions T ⟨outC, errC, .hangs⟩ ∧
    HostAction.killProc ∈ runActions T ⟨outC, errC, .closesLate code⟩ ∧
    (runActions T ⟨outC, errC, .hangs⟩).count .spawnProc = 1 ∧
    (runActions T ⟨outC, errC, .closesLate code⟩).count .spawnProc = 1 := by
  refine ⟨rfl, rfl, rfl, rfl, ?_, ?_, ?_, ?_⟩ <;>
    simp [runActions, timeoutResult, List.count_cons]

/-- C6 counterexample: on a spawn error the code does start the timeout
timer (the promise executor starts it unconditionally before any error
event can fire), contradicting the claim that no timeout timer is
started in this case; the resolution itself is the spawn error result as
claimed. -/
theorem spawn_error_timer_started :
    HostAction.timerStart 5 ∈ runActions 5 ⟨[], [], .spawnErr ['x']⟩ ∧
    runContainerAgent 5 3 ⟨[], [], .spawnErr ['x']⟩ = spawnErrorResult ['x'] := by
  constructor
  · simp [runActions]
  · rfl

/-- C6 amended: for every invocation whose worker process cannot be
started, the invocation resolves immediately (and only) with an error
result carrying the spawn error message; the timeout timer, started
unconditionally when the invocation begins, is cleared by the
spawn-error handler, so it never fires and no timeout result is ever
delivered. -/
theorem spawn_error_resolves (T cap : Nat) (outC errC : List (List Char))
    (msg : List Char) :
    runResolves T cap ⟨outC, errC, .spawnErr msg⟩ = [spawnErrorResult msg] ∧
    runContainerAgent T cap ⟨outC, errC, .spawnErr msg⟩ = spawnErrorResult msg ∧
    (spawnErrorResult msg).status = .error ∧
    (spawnErrorResult msg).error = some ("Agent spawn error: ".data ++ msg) ∧
    runActions T ⟨outC, errC, .spawnErr msg⟩ =
      [.spawnProc, .timerStart T, .timerClear] ∧
    HostAction.timerFire ∉ runActions T ⟨outC, errC, .spawnErr msg⟩ := by
  refine ⟨rfl, rfl, rfl, rfl, rfl, ?_⟩
  simp [runActions]

/-- C7: the snapshot writers perform no rename at all and write the
final snapshot file name directly with a single writeFileSync call, so
the write-temp-then-rename discipline claimed by the specification (and
by the repository's own documentation of its filesystem IPC) is absent
from these writers. -/
theorem snapshot_writes_are_direct (dataDir folder : List Char) :
    (writeTasksSnapshotActions dataDir folder).all (fun a => !a.isRename) = true ∧
    (writeGroupsSnapshotActions dataDir folder).all (fun a => !a.isRename) = true ∧
    FsAction.writeFile (pjoin (pjoin (pjoin dataDir "ipc".data) folder)
      "current_tasks.json".data) ∈ writeTasksSnapshotActions dataDir folder ∧
    FsAction.writeFile (pjoin (pjoin (pjoin dataDir "ipc".data) folder)
      "available_groups.json".data) ∈ writeGroupsSnapshotActions dataDir folder := by
  refine ⟨rfl, rfl, ?_, ?_⟩ <;>
    simp [writeTasksSnapshotActions, writeGroupsSnapshotActions]

/-- C8: the privileged tenant's snapshots carry the full task and group
sets; a non-privileged tenant's tasks snapshot carries exactly its own
tasks and its groups snapshot carries an empty group list. -/
theorem snapshot_tenant_views (folder : List Char) (tasks : List TaskRow)
    (groups : List AvailableGroup) (t : TaskRow) :
    tasksSnapshotContent folder true tasks = tasks ∧
    groupsSnapshotContent true groups = groups ∧
    (t ∈ tasksSnapshotContent folder false tasks ↔
      t ∈ tasks ∧ t.groupFolder = folder) ∧
    groupsSnapshotContent false groups = [] := by
  refine ⟨rfl, rfl, ?_, rfl⟩
  simp [tasksSnapshotContent, List.mem_filter]

/-- C10: when the timeout fires before the close event, the promise
settles once with the timeout result: the head of the resolve sequence
is the timeout result, the close handler's later resolve call is behind
it in the sequence and does not reach the caller, and the observed
result does not depend on the late exit code. -/
theorem promise_settles_once (T cap : Nat) (outC errC : List (List Char))
    (code code2 : Option Int) :
    (runResolves T cap ⟨outC, errC, .closesLate code⟩).head? =
      some (timeoutResult T) ∧
    runResolves T cap ⟨outC, errC, .closesLate code⟩ =
      [timeoutResult T, closeResult cap ⟨outC, errC, .closesLate code⟩ code] ∧
    runContainerAgent T cap ⟨outC, errC, .closesLate code⟩ = timeoutResult T ∧
    runContainerAgent T cap ⟨outC, errC, .closesLate code⟩ =
      runContainerAgent T cap ⟨outC, errC, .closesLate code2⟩ := by
  exact ⟨rfl, rfl, rfl, rfl⟩

/-- C1: the model invocation is a total function (never throws), its
resolve sequence is nonempty for every behaviour (always resolves with a
ContainerOutput), and every failure mode — spawn error, timeout,
non-zero exit code, malformed or missing structured output — resolves
with status error and a nonempty message. -/
theorem invocation_failures_resolve_as_error (T cap : Nat) (b bAny : Behavior)
    (h : isFailureMode cap b = true) :
    runResolves T cap bAny ≠ [] ∧
    (runContainerAgent T cap b).status = .error ∧
    (runContainerAgent T cap b).error.getD [] ≠ [] := by
  refine ⟨?_, ?_⟩
  · obtain ⟨o2, e2, en2⟩ := bAny
    cases en2 <;> simp [runResolves]
  · obtain ⟨outC, errC, en⟩ := b
    cases en with
    | spawnErr msg =>
      exact ⟨rfl, by simp [runContainerAgent, runResolves, spawnErrorResult]⟩
    | closesLate code =>
      exact ⟨rfl, by simp [runContainerAgent, runResolves, timeoutResult]⟩
    | hangs =>
      exact ⟨rfl, by simp [runContainerAgent, runResolves, timeoutResult]⟩
    | closesInTime code =>
      have hrun : runContainerAgent T cap ⟨outC, errC, .closesInTime code⟩ =
          closeResult cap ⟨outC, errC, .closesInTime code⟩ code := rfl
      rw [hrun]
      by_cases hc : code = some 0
      · subst hc
        have hpf : parseFails (stdoutBuf cap ⟨outC, errC, .closesInTime (some 0)⟩) = true := by
          have : decide ((some 0 : Option Int) ≠ some 0) = false := by decide
          simpa [isFailureMode, this] using h
        have hnone :
            parseContainerOutput
              (extractPayload (stdoutBuf cap ⟨outC, errC, .closesInTime (some 0)⟩)) = none :=
          Option.isNone_iff_eq_none.mp hpf
        have hclose : closeResult cap ⟨outC, errC, .closesInTime (some 0)⟩ (some 0) =
            parseAgentStdout (stdoutBuf cap ⟨outC, errC, .closesInTime (some 0)⟩) := by
          unfold closeResult
          rw [if_neg (by simp)]
        rw [hclose]
        unfold parseAgentStdout parsePayload
        rw [hnone]
        exact ⟨rfl, by simp [parseFailMsg]⟩
      · have hclose : closeResult cap ⟨outC, errC, .closesInTime code⟩ code =
            exitCodeResult cap ⟨outC, errC, .closesInTime code⟩ code := by
          unfold closeResult
          rw [if_pos hc]
        rw [hclose]
        exact ⟨rfl, by simp [exitCodeResult]⟩

/-- C2: when the total stdout stream exceeds the cap, the captured
buffer never exceeds the cap, the truncated flag is set, chunks arriving
after truncation leave the buffer unchanged, and a process that closes
in time is never killed regardless of how much it wrote. -/
theorem stdout_cap_enforced (cap T : Nat) (chunks more errChunks : List (List Char))
    (code : Option Int) (h : cap < (chunks.map List.length).sum) :
    (foldChunks cap chunks).1.length ≤ cap ∧
    (foldChunks cap chunks).2 = true ∧
    foldChunks cap (chunks ++ more) = foldChunks cap chunks ∧
    HostAction.killProc ∉ runActions T ⟨chunks, errChunks, .closesInTime code⟩ := by
  have hflag := foldChunks_flag_of_overflow cap chunks h
  refine ⟨foldl_appendChunk_length_le cap chunks ([], false) (by simp), hflag, ?_, ?_⟩
  · show List.foldl (appendChunk cap) ([], false) (chunks ++ more) = _
    rw [List.foldl_append]
    exact foldl_appendChunk_truncated cap more _ hflag
  · simp [runActions]

/-- C9 counterexample: the global-memory path handed to the worker is
the same for two different tenants, so it is not an isolated path
derived from the tenant's folder. -/
theorem global_memory_path_not_isolated :
    buildAgentEnv ⟨"root".data, "groups".data, "data".data⟩
      (fun _ => none) ['a'] false "WORKSPACE_GLOBAL".data =
    buildAgentEnv ⟨"root".data, "groups".data, "data".data⟩
      (fun _ => none) ['b'] false "WORKSPACE_GLOBAL".data ∧
    (['a'] : List Char) ≠ ['b'] := by
  exact ⟨rfl, by decide⟩

/-- C9 amended: the worker environment contains a per-tenant working
directory, IPC directory and session directory derived from the
tenant's folder (distinct folders give distinct paths), a shared
global-memory path equal for all tenants, and a project-root variable
present if and only if the tenant is privileged (assuming the inherited
host environment does not itself define it). -/
theorem worker_env_contract (cfg : PathsCfg) (base : EnvMap)
    (folder folder2 : List Char) (isMain : Bool)
    (hbase : base "WORKSPACE_PROJECT".data = none) (hne : folder ≠ folder2) :
    buildAgentEnv cfg base folder isMain "WORKSPACE_GROUP".data =
      some (pjoin cfg.groupsDir folder) ∧
    buildAgentEnv cfg base folder isMain "WORKSPACE_IPC".data =
      some (pjoin (pjoin cfg.dataDir "ipc".data) folder) ∧
    buildAgentEnv cfg base folder isMain "CLAUDE_CONFIG_DIR".data =
      some (pjoin (pjoin (pjoin cfg.dataDir "sessions".data) folder) ".claude".data) ∧
    buildAgentEnv cfg base folder isMain "WORKSPACE_GLOBAL".data =
      some (pjoin cfg.groupsDir "global".data) ∧
    ((buildAgentEnv cfg base folder isMain "WORKSPACE_PROJECT".data).isSome = true ↔
      isMain = true) ∧
    pjoin cfg.groupsDir folder ≠ pjoin cfg.groupsDir folder2 ∧
    pjoin (pjoin cfg.dataDir "ipc".data) folder ≠
      pjoin (pjoin cfg.dataDir "ipc".data) folder2 ∧
    pjoin (pjoin (pjoin cfg.dataDir "sessions".data) folder) ".claude".data ≠
      pjoin (pjoin (pjoin cfg.dataDir "sessions".data) folder2) ".claude".data := by
  have hinj1 : pjoin cfg.groupsDir folder ≠ pjoin cfg.groupsDir folder2 := by
    intro heq
    exact hne (by simpa using List.append_cancel_left heq)
  have hinj2 : pjoin (pjoin cfg.dataDir "ipc".data) folder ≠
      pjoin (pjoin cfg.dataDir "ipc".data) folder2 := by
    intro heq
    exact hne (by simpa using List.append_cancel_left heq)
  have hinj3 : pjoin (pjoin (pjoin cfg.dataDir "sessions".data) folder) ".claude".data ≠
      pjoin (pjoin (pjoin cfg.dataDir "sessions".data) folder2) ".claude".data := by
    intro heq
    have h2 : pjoin (pjoin cfg.dataDir "sessions".data) folder =
        pjoin (pjoin cfg.dataDir "sessions".data) folder2 :=
      List.append_cancel_right heq
    exact hne (by simpa using List.append_cancel_left h2)
  cases isMain with
  | false =>
    refine ⟨rfl, rfl, rfl, rfl, ?_, hinj1, hinj2, hinj3⟩
    have hP : buildAgentEnv cfg base folder false "WORKSPACE_PROJECT".data =
        base "WORKSPACE_PROJECT".data := rfl
    rw [hP, hbase]
    simp
  | true =>
    refine ⟨rfl, rfl, rfl, rfl, ?_, hinj1, hinj2, hinj3⟩
    have hP : buildAgentEnv cfg base folder true "WORKSPACE_PROJECT".data =
        some cfg.projectRoot := rfl
    rw [hP]
    simp

/-- C4 counterexample: the round trip fails as claimed for arbitrary
WorkerResult values and arbitrary surrounding log lines.  A result whose
text contains the end sentinel marker is not recovered (the first end
marker found lies inside the JSON), and a preceding log line containing
the end marker also breaks recovery (the end marker found precedes the
start marker, forcing the fallback path). -/
theorem roundtrip_fails_on_marker_content :
    parseAgentStdout
        (emission ⟨.success, some OUTPUT_END_MARKER, none, none⟩ [] []) ≠
      ⟨.success, some OUTPUT_END_MARKER, none, none⟩ ∧
    parseAgentStdout
        (emission ⟨.success, some "ok".data, none, none⟩
          (OUTPUT_END_MARKER ++ ['\n']) []) ≠
      ⟨.success, some "ok".data, none, none⟩ := by
  constructor
  · decide
  · decide

/-- C4 amended: for every WorkerResult emitted between the sentinel
markers and surrounded by arbitrary extraneous output, provided neither
the serialized result nor the surrounding output contains a sentinel
marker before the emitted ones (the emitted markers are the first
occurrences in the captured stdout), the parser recovers exactly that
WorkerResult. -/
theorem worker_result_roundtrip (o : ContainerOutput) (pre post : List Char)
    (hs : firstIdx OUTPUT_START_MARKER (emission o pre post) = some pre.length)
    (he : firstIdx OUTPUT_END_MARKER (emission o pre post) =
      some (pre.length + OUTPUT_START_MARKER.length
        + ((serializeContainerOutput o).length + 2))) :
    parseAgentStdout (emission o pre post) = o := by
  unfold parseAgentStdout extractPayload
  rw [hs, he]
  show parsePayload
      (if (pre.length + OUTPUT_START_MARKER.length
            + ((serializeContainerOutput o).length + 2)) > pre.length then
        trimL (sliceL (emission o pre post) (pre.length + OUTPUT_START_MARKER.length)
          (pre.length + OUTPUT_START_MARKER.length
            + ((serializeContainerOutput o).length + 2)))
      else lastLineD (trimL (emission o pre post))) = o
  rw [if_pos (by omega)]
  have hdrop : (emission o pre post).drop (pre.length + OUTPUT_START_MARKER.length) =
      ('\n' :: serializeContainerOutput o) ++ (('\n' :: OUTPUT_END_MARKER) ++ post) := by
    unfold emission
    rw [List.append_assoc, List.append_assoc]
    rw [show pre.length + OUTPUT_START_MARKER.length =
        (pre ++ OUTPUT_START_MARKER).length from by simp]
    exact List.drop_left _ _
  have htake : (('\n' :: serializeContainerOutput o)
      ++ (('\n' :: OUTPUT_END_MARKER) ++ post)).take
        ((serializeContainerOutput o).length + 2) =
      '\n' :: (serializeContainerOutput o ++ ['\n']) := by
    rw [show (serializeContainerOutput o).length + 2 =
        ('\n' :: serializeContainerOutput o).length + 1 from by simp]
    rw [List.take_append]
    rw [show ('\n' :: OUTPUT_END_MARKER) ++ post =
        '\n' :: (OUTPUT_END_MARKER ++ post) from rfl]
    rw [show ('\n' :: (OUTPUT_END_MARKER ++ post)).take 1 = ['\n'] from by
      simp [List.take_cons]]
    rfl
  unfold sliceL
  rw [show pre.length + OUTPUT_START_MARKER.length
      + ((serializeContainerOutput o).length + 2)
      - (pre.length + OUTPUT_START_MARKER.length) =
      (serializeContainerOutput o).length + 2 from by omega]
  rw [hdrop, htake]
  obtain ⟨mid, hmid⟩ := serialize_shape o
  rw [hmid]
  rw [trimL_nl_wrap]
  rw [← hmid]
  unfold parsePayload
  rw [parseContainerOutput_serialize]

/-- Trimmed output never ends in a whitespace character. -/
theorem trimL_not_ws_suffix (l a : List Char) (c : Char) (hc : isWs c = true) :
    trimL l ≠ a ++ [c] := by
  intro h
  unfold trimL at h
  have h2 : List.dropWhile isWs (l.dropWhile isWs).reverse = (a ++ [c]).reverse := by
    rw [← h, List.reverse_reverse]
  rw [List.reverse_append] at h2
  rw [show (([c] : List Char)).reverse = [c] from rfl] at h2
  have h0 : 0 < (List.dropWhile isWs (l.dropWhile isWs).reverse).length := by
    rw [h2]; simp
  have hnot := List.dropWhile_get_zero_not isWs (l.dropWhile isWs).reverse h0
  rw [List.get_of_eq h2] at hnot
  simp at hnot
  rw [hnot] at hc
  exact Bool.false_ne_true hc

/-- C3: an invocation whose process exits with code zero resolves with
the parse of the captured stdout; when both markers occur (first
occurrences) with the end marker after the start marker, the payload is
the trimmed text between them; when the end marker does not come after
the start marker, or either marker is absent, the payload is the last
line of the trimmed stdout, a nonempty non-whitespace line; and a
payload the parser rejects gives an error result describing the parse
failure. -/
theorem exit_zero_output_parsing
    (T cap : Nat) (outC errC : List (List Char))
    (stdout stdoutB stdoutF stdoutG payloadX : List Char)
    (s e sB eB : Nat) (linePre lineLast : List Char)
    (hso : occursAt OUTPUT_START_MARKER stdout s)
    (hsm : ∀ j, j < s → ¬ occursAt OUTPUT_START_MARKER stdout j)
    (heo : occursAt OUTPUT_END_MARKER stdout e)
    (hem : ∀ j, j < e → ¬ occursAt OUTPUT_END_MARKER stdout j)
    (hlt : s < e)
    (hsoB : occursAt OUTPUT_START_MARKER stdoutB sB)
    (hsmB : ∀ j, j < sB → ¬ occursAt OUTPUT_START_MARKER stdoutB j)
    (heoB : occursAt OUTPUT_END_MARKER stdoutB eB)
    (hemB : ∀ j, j < eB → ¬ occursAt OUTPUT_END_MARKER stdoutB j)
    (hleB : eB ≤ sB)
    (hF : firstIdx OUTPUT_START_MARKER stdoutF = none)
    (hG : firstIdx OUTPUT_END_MARKER stdoutG = none)
    (hdec : trimL stdoutF = linePre ++ '\n' :: lineLast)
    (hnl : '\n' ∉ lineLast)
    (hP : parseContainerOutput payloadX = none) :
    runContainerAgent T cap ⟨outC, errC, .closesInTime (some 0)⟩ =
      parseAgentStdout (stdoutBuf cap ⟨outC, errC, .closesInTime (some 0)⟩) ∧
    parseAgentStdout stdout =
      parsePayload (trimL (sliceL stdout (s + OUTPUT_START_MARKER.length) e)) ∧
    parseAgentStdout stdoutB = parsePayload (lastLineD (trimL stdoutB)) ∧
    parseAgentStdout stdoutF = parsePayload (lastLineD (trimL stdoutF)) ∧
    parseAgentStdout stdoutG = parsePayload (lastLineD (trimL stdoutG)) ∧
    lastLineD (trimL stdoutF) = lineLast ∧
    lineLast ≠ [] ∧
    parsePayload payloadX = ⟨.error, none, none, some parseFailMsg⟩ ∧
    parseFailMsg ≠ [] := by
  have hsi : firstIdx OUTPUT_START_MARKER stdout = some s :=
    (firstIdx_eq_some_iff _ _ _).mpr ⟨hso, hsm⟩
  have hei : firstIdx OUTPUT_END_MARKER stdout = some e :=
    (firstIdx_eq_some_iff _ _ _).mpr ⟨heo, hem⟩
  have hsiB : firstIdx OUTPUT_START_MARKER stdoutB = some sB :=
    (firstIdx_eq_some_iff _ _ _).mpr ⟨hsoB, hsmB⟩
  have heiB : firstIdx OUTPUT_END_MARKER stdoutB = some eB :=
    (firstIdx_eq_some_iff _ _ _).mpr ⟨heoB, hemB⟩
  refine ⟨rfl, ?_, ?_, ?_, ?_, ?_, ?_, ?_, ?_⟩
  · unfold parseAgentStdout extractPayload
    rw [hsi, hei]
    show parsePayload (if e > s then
        trimL (sliceL stdout (s + OUTPUT_START_MARKER.length) e)
      else lastLineD (trimL stdout)) = _
    rw [if_pos hlt]
  · unfold parseAgentStdout extractPayload
    rw [hsiB, heiB]
    show parsePayload (if eB > sB then
        trimL (sliceL stdoutB (sB + OUTPUT_START_MARKER.length) eB)
      else lastLineD (trimL stdoutB)) = _
    rw [if_neg (by omega)]
  · unfold parseAgentStdout extractPayload
    rw [hF]
  · unfold parseAgentStdout extractPayload
    rw [hG]
    rcases firstIdx OUTPUT_START_MARKER stdoutG with _ | s2 <;> rfl
  · rw [hdec, lastLineD_append_nl, lastLineD_no_nl _ hnl]
  · intro hempty
    rw [hempty] at hdec
    exact trimL_not_ws_suffix stdoutF linePre '\n' rfl hdec
  · unfold parsePayload
    rw [hP]
  · simp [parseFailMsg]

/-! Concrete instances used by the witnesses. -/

/-- Stdout with a well-formed marker pair around a payload. -/
def wStdout : List Char :=
  OUTPUT_START_MARKER ++ '\n' :: 'x' :: '\n' :: OUTPUT_END_MARKER

/-- Stdout with both markers present but in the wrong order. -/
def wStdoutB : List Char := OUTPUT_END_MARKER ++ OUTPUT_START_MARKER

/-- Stdout with no markers at all. -/
def wStdoutF : List Char := "log line\nlast".data

/-- A worker result and surrounding log lines for the round trip. -/
def wOut : ContainerOutput := ⟨.success, some ['o', 'k'], none, none⟩

theorem invocation_failures_resolve_as_error_witness :
    runResolves 5 3 ⟨[['o', 'k']], [], .closesInTime (some 0)⟩ ≠ [] ∧
    (runContainerAgent 5 3 ⟨[], [], .hangs⟩).status = .error ∧
    (runContainerAgent 5 3 ⟨[], [], .hangs⟩).error.getD [] ≠ [] :=
  invocation_failures_resolve_as_error 5 3 ⟨[], [], .hangs⟩
    ⟨[['o', 'k']], [], .closesInTime (some 0)⟩ (by decide)

theorem stdout_cap_enforced_witness :
    (foldChunks 3 [['a', 'b'], ['c', 'd', 'e']]).1.length ≤ 3 ∧
    (foldChunks 3 [['a', 'b'], ['c', 'd', 'e']]).2 = true ∧
    foldChunks 3 ([['a', 'b'], ['c', 'd', 'e']] ++ [['z']]) =
      foldChunks 3 [['a', 'b'], ['c', 'd', 'e']] ∧
    HostAction.killProc ∉
      runActions 7 ⟨[['a', 'b'], ['c', 'd', 'e']], [], .closesInTime (some 0)⟩ :=
  stdout_cap_enforced 3 7 [['a', 'b'], ['c', 'd', 'e']] [['z']] [] (some 0) (by decide)

theorem exit_zero_output_parsing_witness :
    runContainerAgent 5 999 ⟨[wStdout], [], .closesInTime (some 0)⟩ =
      parseAgentStdout (stdoutBuf 999 ⟨[wStdout], [], .closesInTime (some 0)⟩) ∧
    parseAgentStdout wStdout =
      parsePayload (trimL (sliceL wStdout (0 + OUTPUT_START_MARKER.length) 30)) ∧
    parseAgentStdout wStdoutB = parsePayload (lastLineD (trimL wStdoutB)) ∧
    parseAgentStdout wStdoutF = parsePayload (lastLineD (trimL wStdoutF)) ∧
    parseAgentStdout OUTPUT_START_MARKER =
      parsePayload (lastLineD (trimL OUTPUT_START_MARKER)) ∧
    lastLineD (trimL wStdoutF) = "last".data ∧
    "last".data ≠ ([] : List Char) ∧
    parsePayload ['x'] = ⟨.error, none, none, some parseFailMsg⟩ ∧
    parseFailMsg ≠ [] :=
  exit_zero_output_parsing 5 999 [wStdout] [] wStdout wStdoutB wStdoutF
    OUTPUT_START_MARKER ['x'] 0 30 25 0 "log line".data "last".data
    (by decide) (fun j hj => absurd hj (Nat.not_lt_zero j))
    (by decide) (by decide) (by decide)
    (by decide) (by decide) (by decide)
    (fun j hj => absurd hj (Nat.not_lt_zero j)) (by decide)
    (by decide) (by decide) (by decide) (by decide) (by decide)

theorem worker_result_roundtrip_witness :
    parseAgentStdout (emission wOut "log\n".data "\ndone".data) = wOut :=
  worker_result_roundtrip wOut "log\n".data "\ndone".data (by decide) (by decide)

theorem worker_env_contract_witness :
    buildAgentEnv ⟨"root".data, "groups".data, "data".data⟩ (fun _ => none)
      ['a'] true "WORKSPACE_GROUP".data = some (pjoin "groups".data ['a']) ∧
    buildAgentEnv ⟨"root".data, "groups".data, "data".data⟩ (fun _ => none)
      ['a'] true "WORKSPACE_IPC".data =
      some (pjoin (pjoin "data".data "ipc".data) ['a']) ∧
    buildAgentEnv ⟨"root".data, "groups".data, "data".data⟩ (fun _ => none)
      ['a'] true "CLAUDE_CONFIG_DIR".data =
      some (pjoin (pjoin (pjoin "data".data "sessions".data) ['a']) ".claude".data) ∧
    buildAgentEnv ⟨"root".data, "groups".data, "data".data⟩ (fun _ => none)
      ['a'] true "WORKSPACE_GLOBAL".data =
      some (pjoin "groups".data "global".data) ∧
    ((buildAgentEnv ⟨"root".data, "groups".data, "data".data⟩ (fun _ => none)
      ['a'] true "WORKSPACE_PROJECT".data).isSome = true ↔ true = true) ∧
    pjoin "groups".data ['a'] ≠ pjoin "groups".data ['b'] ∧
    pjoin (pjoin "data".data "ipc".data) ['a'] ≠
      pjoin (pjoin "data".data "ipc".data) ['b'] ∧
    pjoin (pjoin (pjoin "data".data "sessions".data) ['a']) ".claude".data ≠
      pjoin (pjoin (pjoin "data".data "sessions".data) ['b']) ".claude".data :=
  worker_env_contract ⟨"root".data, "groups".data, "data".data⟩ (fun _ => none)
    ['a'] ['b'] true rfl (by decide)

end NanoClaw
